import Mathlib

/-!
A shallow embedding of `src/App.js` (a client-side user dashboard): the
derivation pipeline (filter → sort → paginate), the query-state event loop
(search input, company filter, sort toggle, prev/next buttons, scroll
advancement) and the startup fetch, together with theorems checking the
specification's claims against this embedding.
-/

namespace App

/-- The `company` field of a fetched record (`src/App.js` renders
`user.company.name`). -/
structure Company where
  name : String
deriving DecidableEq, Repr

/-- A fetched record, as consumed by `src/App.js` (`id`, `name`, `email`,
`phone`, `company.name`). -/
structure User where
  id : Nat
  name : String
  email : String
  phone : String
  company : Company
deriving DecidableEq, Repr

/-- The constant `usersPerPage = 5` (App.js:17). -/
def usersPerPage : Nat := 5

/-- JS `String.prototype.toLowerCase()` as used on the ASCII names in this
app: lower-case every character. -/
def jsToLower (s : String) : String := String.mk (s.data.map Char.toLower)

/-- Whether `pat` is a leading segment of `s` (helper for `jsIncludes`). -/
def leadMatch : List Char → List Char → Bool
  | [], _ => true
  | _ :: _, [] => false
  | p :: ps, c :: cs => p == c && leadMatch ps cs

/-- Whether `pat` occurs as a contiguous run somewhere in `s` (helper for
`jsIncludes`). -/
def hasRun (pat : List Char) : List Char → Bool
  | [] => leadMatch pat []
  | c :: cs => leadMatch pat (c :: cs) || hasRun pat cs

/-- JS `s.includes(pat)`: `pat` occurs as a contiguous substring of `s`. -/
def jsIncludes (s pat : String) : Bool := hasRun pat.data s.data

/-- The name predicate `user.name.toLowerCase().includes(search.toLowerCase())` (App.js:96). -/
def isNameMatch (u : User) (search : String) : Bool :=
  jsIncludes (jsToLower u.name) (jsToLower search)

/-- The company predicate
`companyFilter ? user.company.name.toLowerCase() === companyFilter.toLowerCase() : true`
(App.js:97-99); the empty string is the only falsy filter value here. -/
def isCompanyMatch (u : User) (companyFilter : String) : Bool :=
  if companyFilter = "" then true
  else jsToLower u.company.name == jsToLower companyFilter

/-- The `filteredUsers` memo (App.js:94-102). -/
def filteredUsers (users : List User) (search companyFilter : String) : List User :=
  users.filter (fun u => isNameMatch u search && isCompanyMatch u companyFilter)

/-- The sort key: `user.name.toLowerCase()` (App.js:107-108). -/
def nameLower (u : User) : String := jsToLower u.name

/-- Lexicographic ≤ on character sequences: the order `localeCompare`
induces on the ASCII names of this app. -/
def lexLe : List Char → List Char → Bool
  | [], _ => true
  | _ :: _, [] => false
  | a :: as, b :: bs => if a = b then lexLe as bs else decide (a.toNat < b.toNat)

/-- The sort key as a character sequence. -/
def nameKey (u : User) : List Char := (nameLower u).data

/-- Ascending comparator relation of the `sortedUsers` memo:
`nameA.localeCompare(nameB)` on lower-cased names (App.js:109-110), modelled
as the lexicographic order on the lower-cased names. -/
def ascLE (a b : User) : Prop := lexLe (nameKey a) (nameKey b) = true

/-- Descending comparator relation: `nameB.localeCompare(nameA)`
(App.js:111-112). -/
def descLE (a b : User) : Prop := lexLe (nameKey b) (nameKey a) = true

instance : DecidableRel ascLE :=
  fun a b => (inferInstance : Decidable (lexLe (nameKey a) (nameKey b) = true))

instance : DecidableRel descLE :=
  fun a b => (inferInstance : Decidable (lexLe (nameKey b) (nameKey a) = true))

theorem char_toNat_inj {a b : Char} (h : a.toNat = b.toNat) : a = b :=
  Char.eq_of_val_eq (UInt32.ext h)

theorem lexLe_total : ∀ as bs : List Char, lexLe as bs = true ∨ lexLe bs as = true
  | [], _ => Or.inl rfl
  | _ :: _, [] => Or.inr rfl
  | a :: as, b :: bs => by
      by_cases hab : a = b
      · subst hab
        simpa [lexLe] using lexLe_total as bs
      · have hba : b ≠ a := fun h => hab h.symm
        rcases Nat.lt_or_ge a.toNat b.toNat with h | h
        · exact Or.inl (by simp [lexLe, hab, h])
        · have hlt : b.toNat < a.toNat :=
            lt_of_le_of_ne h (fun hv => hab (char_toNat_inj hv.symm))
          exact Or.inr (by simp [lexLe, hba, hlt])

theorem lexLe_trans :
    ∀ as bs cs : List Char,
      lexLe as bs = true → lexLe bs cs = true → lexLe as cs = true
  | [], _, _, _, _ => rfl
  | _ :: _, [], _, h, _ => by simp [lexLe] at h
  | _ :: _, _ :: _, [], _, h => by simp [lexLe] at h
  | a :: as, b :: bs, c :: cs, h₁, h₂ => by
      by_cases hab : a = b <;> by_cases hbc : b = c
      · subst hab; subst hbc
        simp only [lexLe, if_pos rfl] at h₁ h₂ ⊢
        exact lexLe_trans as bs cs h₁ h₂
      · subst hab
        simpa [lexLe, hbc] using h₂
      · subst hbc
        simpa [lexLe, hab] using h₁
      · simp only [lexLe, if_neg hab] at h₁
        simp only [lexLe, if_neg hbc] at h₂
        have hac : a.toNat < c.toNat := Nat.lt_trans (of_decide_eq_true h₁) (of_decide_eq_true h₂)
        have hne : a ≠ c := fun h => Nat.lt_irrefl _ (h ▸ hac)
        simp [lexLe, hne, hac]

theorem lexLe_antisymm :
    ∀ as bs : List Char, lexLe as bs = true → lexLe bs as = true → as = bs
  | [], [], _, _ => rfl
  | [], _ :: _, _, h => by simp [lexLe] at h
  | _ :: _, [], h, _ => by simp [lexLe] at h
  | a :: as, b :: bs, h₁, h₂ => by
      by_cases hab : a = b
      · subst hab
        simp only [lexLe, if_pos rfl] at h₁ h₂
        exact congrArg (a :: ·) (lexLe_antisymm as bs h₁ h₂)
      · have hba : b ≠ a := fun h => hab h.symm
        simp only [lexLe, if_neg hab] at h₁
        simp only [lexLe, if_neg hba] at h₂
        exact absurd (of_decide_eq_true h₁)
          (Nat.lt_asymm (of_decide_eq_true h₂))

instance : IsTotal User ascLE := ⟨fun a b => lexLe_total (nameKey a) (nameKey b)⟩

instance : IsTrans User ascLE := ⟨fun _ _ _ h₁ h₂ => lexLe_trans _ _ _ h₁ h₂⟩

instance : IsTotal User descLE := ⟨fun a b => lexLe_total (nameKey b) (nameKey a)⟩

instance : IsTrans User descLE := ⟨fun _ _ _ h₁ h₂ => lexLe_trans _ _ _ h₂ h₁⟩

/-- The `sortedUsers` memo (App.js:105-115): a stable sort of the filtered
list by lower-cased name, ascending when `sortOrder === "asc"`, otherwise
descending.  JS `Array.prototype.sort` is stable, as is
`List.insertionSort`. -/
def sortedUsers (l : List User) (sortOrder : String) : List User :=
  if sortOrder = "asc" then List.insertionSort ascLE l
  else List.insertionSort descLE l

/-- JS `l.slice(s, e)` for `0 ≤ s ≤ e`. -/
def jsSlice {α : Type} (l : List α) (s e : Nat) : List α := (l.drop s).take (e - s)

/-- The displayed page (App.js:117-119):
`sortedUsers.slice((currentPage-1)*usersPerPage, currentPage*usersPerPage)`. -/
def currentUsers (sorted : List User) (currentPage : Nat) : List User :=
  jsSlice sorted ((currentPage - 1) * usersPerPage) (currentPage * usersPerPage)

/-- The page count `Math.ceil(n / usersPerPage)` on a natural `n` (App.js:28). -/
def totalPagesOf (n : Nat) : Nat := (n + usersPerPage - 1) / usersPerPage

/-- The `changePage` handler (App.js:121-126):
`Math.min(Math.max(prevPage + direction, 1), totalPages)`. -/
def changePage (prevPage direction totalPages : Int) : Int :=
  min (max (prevPage + direction) 1) totalPages

/-- The `handleScroll` handler (App.js:39-48): when the viewport is within
the ≈5-unit near-bottom threshold and `currentPage < totalPages`, advance by
one page; otherwise leave the page unchanged. -/
def handleScroll (nearBottom : Bool) (currentPage totalPages : Int) : Int :=
  if nearBottom ∧ currentPage < totalPages then currentPage + 1 else currentPage

/-- The component state of `App` (App.js:5-15): the `useState` cells. -/
structure AppState where
  users : List User
  loading : Bool
  error : Option String
  currentPage : Int
  search : String
  companyFilter : String
  sortOrder : String
  totalPages : Int
deriving DecidableEq, Repr

/-- The initial `useState` values (App.js:5-15). -/
def initialState : AppState :=
  { users := [], loading := true, error := none, currentPage := 1,
    search := "", companyFilter := "", sortOrder := "asc", totalPages := 0 }

/-- The discrete events the component reacts to: the resolution of the single
startup fetch (App.js:19-37), a scroll event carrying the derived near-bottom
boolean (App.js:39-48), a prev/next button click (App.js:121-126, 224, 234),
a raw search-input event (App.js:166-171), a company-dropdown selection
(App.js:172-183) and a click on the sort button (App.js:213-218). -/
inductive Event where
  | fetched (result : Except String (List User))
  | scroll (nearBottom : Bool)
  | pageChange (direction : Int)
  | searchInput (value : String)
  | companySelect (value : String)
  | sortToggle

/-- One step of the event loop.  `fetched (.ok data)` performs
`setUsers(data); setTotalPages(Math.ceil(data.length / usersPerPage))`;
`fetched (.error msg)` performs `setError(msg)`; both then run the `finally`
branch `setLoading(false)`.  `searchInput` is the `onChange={debounceSearch}`
handler, which calls `setSearch(e.target.value)` synchronously (App.js:79-84,
170); the 300 ms `setTimeout` effect (App.js:86-91) only re-submits the value
already stored in `search`, so it never changes the state. -/
def step (s : AppState) : Event → AppState
  | .fetched (.ok data) =>
      { s with users := data,
               totalPages := (totalPagesOf data.length : Int),
               loading := false }
  | .fetched (.error msg) => { s with error := some msg, loading := false }
  | .scroll nb => { s with currentPage := handleScroll nb s.currentPage s.totalPages }
  | .pageChange d => { s with currentPage := changePage s.currentPage d s.totalPages }
  | .searchInput v => { s with search := v }
  | .companySelect v => { s with companyFilter := v }
  | .sortToggle =>
      { s with sortOrder := if s.sortOrder = "asc" then "desc" else "asc" }

/-- Run a sequence of events from the initial state. -/
def run (evs : List Event) : AppState := evs.foldl step initialState

/-- The filtered-and-sorted sequence derived from a state (App.js:94-115). -/
def derivedSorted (s : AppState) : List User :=
  sortedUsers (filteredUsers s.users s.search s.companyFilter) s.sortOrder

/-- The page of records actually displayed (App.js:117-119, 188). -/
def displayedPage (s : AppState) : List User :=
  currentUsers (derivedSorted s) s.currentPage.toNat

/-- A raw search-input event: the time it fires (ms) and the text value it
carries. -/
structure InputEvent where
  time : Nat
  value : String
deriving DecidableEq, Repr

/-- The sequence of `(time, value)` commits that reach the `search` query
state for a sequence of raw input events.  In the source the input's
`onChange` handler is `debounceSearch` itself (App.js:170), and
`debounceSearch` calls `setSearch(e.target.value)` synchronously
(App.js:79-84), so every raw event commits its value immediately; the
`setTimeout` effect (App.js:86-91) only re-submits the already-committed
value 300 ms later. -/
def commitsOf (evs : List InputEvent) : List (Nat × String) :=
  evs.map (fun e => (e.time, e.value))

/-- The page count the specification's clamping claim refers to:
`ceil(filteredCount / pageSize)` computed from the current filtered set.
Stated from the claim's words, for comparison with the code's `totalPages`. -/
def specFilteredPageCount (s : AppState) : Nat :=
  totalPagesOf (filteredUsers s.users s.search s.companyFilter).length

/-- The list of slices the pagination produces, one per page index
`1, …, ceil(length / usersPerPage)`. -/
def pagesList (l : List User) : List (List User) :=
  (List.range (totalPagesOf l.length)).map (fun i => currentUsers l (i + 1))

/-! Concrete records used in scenario claims and counterexamples. -/

/-- Record named "John" from the spec's filtering scenario. -/
def john : User := ⟨1, "John", "john@x.io", "1", ⟨"Acme"⟩⟩

/-- Record named "Bob" from the spec's filtering scenario. -/
def bob : User := ⟨2, "Bob", "bob@x.io", "2", ⟨"Acme"⟩⟩

/-- Record named "Rose" from the spec's filtering scenario. -/
def rose : User := ⟨3, "Rose", "rose@x.io", "3", ⟨"Beta"⟩⟩

/-- A record named "Bob": its name differs from `userb`'s only in case. -/
def userB : User := ⟨1, "Bob", "b@x.io", "1", ⟨"Acme"⟩⟩

/-- A record named "bob": its name differs from `userB`'s only in case. -/
def userb : User := ⟨2, "bob", "b2@x.io", "2", ⟨"Acme"⟩⟩

/-- A six-record collection (two pages at five records per page). -/
def sixUsers : List User :=
  [⟨1, "Alice", "a@x.io", "1", ⟨"Acme"⟩⟩, ⟨2, "Brian", "b@x.io", "2", ⟨"Acme"⟩⟩,
   ⟨3, "Cara", "c@x.io", "3", ⟨"Beta"⟩⟩, ⟨4, "Dan", "d@x.io", "4", ⟨"Beta"⟩⟩,
   ⟨5, "Eve", "e@x.io", "5", ⟨"Beta"⟩⟩, ⟨6, "Zed", "z@x.io", "6", ⟨"Beta"⟩⟩]

/-- A twelve-record collection (three pages at five records per page), as in
the spec's scroll scenario. -/
def twelveUsers : List User :=
  [⟨1, "N01", "1@x.io", "1", ⟨"Acme"⟩⟩, ⟨2, "N02", "2@x.io", "2", ⟨"Acme"⟩⟩,
   ⟨3, "N03", "3@x.io", "3", ⟨"Acme"⟩⟩, ⟨4, "N04", "4@x.io", "4", ⟨"Acme"⟩⟩,
   ⟨5, "N05", "5@x.io", "5", ⟨"Acme"⟩⟩, ⟨6, "N06", "6@x.io", "6", ⟨"Acme"⟩⟩,
   ⟨7, "N07", "7@x.io", "7", ⟨"Beta"⟩⟩, ⟨8, "N08", "8@x.io", "8", ⟨"Beta"⟩⟩,
   ⟨9, "N09", "9@x.io", "9", ⟨"Beta"⟩⟩, ⟨10, "N10", "10@x.io", "10", ⟨"Beta"⟩⟩,
   ⟨11, "N11", "11@x.io", "11", ⟨"Beta"⟩⟩, ⟨12, "N12", "12@x.io", "12", ⟨"Beta"⟩⟩]

/-! Helper lemmas shared by the claim theorems. -/

/-- Every string satisfies `s.includes("")`. -/
theorem jsIncludes_empty (s : String) : jsIncludes s "" = true := by
  obtain ⟨d⟩ := s
  cases d with
  | nil => rfl
  | cons c cs => rfl

/-- The `changePage` result is clamped into `[1, totalPages]` when
`totalPages ≥ 1`, and is `0` when `totalPages = 0`. -/
theorem changePage_bounds (p d total : Int) :
    (1 ≤ total → 1 ≤ changePage p d total ∧ changePage p d total ≤ total) ∧
    (total = 0 → changePage p d total = 0) := by
  constructor
  · intro h
    exact ⟨le_min (le_max_right _ _) h, min_le_right _ _⟩
  · intro h
    subst h
    exact min_eq_right (le_trans zero_le_one (le_max_right _ _))

/-- Two sorted lists that are permutations of each other are equal, assuming
antisymmetry of the order on the members of the first list. -/
theorem perm_sorted_eq {α : Type} {r : α → α → Prop} :
    ∀ (l₁ l₂ : List α), l₁.Perm l₂ → l₁.Sorted r → l₂.Sorted r →
      (∀ a ∈ l₁, ∀ b ∈ l₁, r a b → r b a → a = b) → l₁ = l₂
  | [], _, hp, _, _, _ => hp.nil_eq
  | a :: t₁, [], hp, _, _, _ => List.noConfusion hp.symm.nil_eq
  | a :: t₁, b :: t₂, hp, hs₁, hs₂, hanti => by
      have hab : a = b := by
        by_cases h : a = b
        · exact h
        · have ha2 : a ∈ b :: t₂ := hp.subset (List.mem_cons_self a t₁)
          have hb1 : b ∈ a :: t₁ := hp.symm.subset (List.mem_cons_self b t₂)
          have hat2 : a ∈ t₂ := (List.mem_cons.1 ha2).resolve_left h
          have hbt1 : b ∈ t₁ := (List.mem_cons.1 hb1).resolve_left (fun hh => h hh.symm)
          have h₁ : r a b := List.rel_of_sorted_cons hs₁ b hbt1
          have h₂ : r b a := List.rel_of_sorted_cons hs₂ a hat2
          exact hanti a (List.mem_cons_self a t₁) b (List.mem_cons_of_mem a hbt1) h₁ h₂
      subst hab
      have ht : t₁ = t₂ := perm_sorted_eq t₁ t₂ hp.cons_inv hs₁.of_cons hs₂.of_cons
        (fun x hx y hy => hanti x (List.mem_cons_of_mem a hx) y (List.mem_cons_of_mem a hy))
      rw [ht]

/-- Splitting a list into `k` consecutive chunks of size `p` and flattening
them back recovers the list, provided `k` chunks cover its length. -/
theorem flatten_chunks {α : Type} (p : Nat) :
    ∀ (k : Nat) (l : List α), l.length ≤ k * p →
      ((List.range k).map (fun i => (l.drop (i * p)).take p)).flatten = l
  | 0, l, h => by
      have hl : l = [] := List.eq_nil_of_length_eq_zero (Nat.le_zero.mp (by simpa using h))
      simp [hl]
  | k + 1, l, h => by
      rw [List.range_succ_eq_map, List.map_cons, List.map_map, List.flatten_cons]
      have hmap :
          List.map ((fun i => (l.drop (i * p)).take p) ∘ Nat.succ) (List.range k) =
            List.map (fun i => ((l.drop p).drop (i * p)).take p) (List.range k) := by
        apply List.map_congr_left
        intro i _
        have hdd : (l.drop p).drop (i * p) = l.drop (Nat.succ i * p) := by
          rw [List.drop_drop]
          have : p + i * p = Nat.succ i * p := by
            rw [Nat.succ_mul]; omega
          rw [this]
        simp only [Function.comp_apply, hdd]
      rw [hmap]
      have hlen : (l.drop p).length ≤ k * p := by
        have hh : l.length ≤ (k + 1) * p := h
        rw [Nat.succ_mul] at hh
        simp only [List.length_drop]
        omega
      rw [flatten_chunks p k (l.drop p) hlen]
      simp only [Nat.zero_mul, List.drop_zero]
      exact List.take_append_drop p l

/-- A non-fetch event leaves both `users` and `error` untouched. -/
theorem step_no_fetch_users_error (s : AppState) (e : Event)
    (h : ∀ r, e ≠ .fetched r) :
    (step s e).users = s.users ∧ (step s e).error = s.error := by
  cases e with
  | fetched r => exact absurd rfl (h r)
  | scroll nb => exact ⟨rfl, rfl⟩
  | pageChange d => exact ⟨rfl, rfl⟩
  | searchInput v => exact ⟨rfl, rfl⟩
  | companySelect v => exact ⟨rfl, rfl⟩
  | sortToggle => exact ⟨rfl, rfl⟩

/-- Folding any fetch-free event sequence leaves `users` and `error`
untouched. -/
theorem foldl_no_fetch :
    ∀ (evs : List Event) (s : AppState), (∀ r, Event.fetched r ∉ evs) →
      (evs.foldl step s).users = s.users ∧ (evs.foldl step s).error = s.error
  | [], _, _ => ⟨rfl, rfl⟩
  | e :: t, s, h => by
      have he : ∀ r, e ≠ Event.fetched r := by
        intro r hr
        exact h r (by rw [← hr]; exact List.mem_cons_self e t)
      have ht : ∀ r, Event.fetched r ∉ t := fun r hr => h r (List.mem_cons_of_mem e hr)
      have hs := step_no_fetch_users_error s e he
      have ih := foldl_no_fetch t (step s e) ht
      exact ⟨ih.1.trans hs.1, ih.2.trans hs.2⟩

/-! The claim theorems. -/

/-- Claim C1, counterexample: load six records (`totalPages` becomes 2), go
to page 2 with the next button, then search for "zed", which shrinks the
filtered set to one record.  The claimed invariant
`pageIndex ≤ max 1 (ceil(filteredCount / pageSize))` now fails: the page
index stays 2 while the filtered page count is 1 — nothing in the code
re-clamps `currentPage` when the filtered set changes. -/
theorem clamping_invariant_cex :
    (run [.fetched (.ok sixUsers), .pageChange 1, .searchInput "zed"]).currentPage = 2 ∧
    specFilteredPageCount
      (run [.fetched (.ok sixUsers), .pageChange 1, .searchInput "zed"]) = 1 ∧
    ¬((run [.fetched (.ok sixUsers), .pageChange 1, .searchInput "zed"]).currentPage ≤
        (max 1 (specFilteredPageCount
          (run [.fetched (.ok sixUsers), .pageChange 1, .searchInput "zed"])) : Int)) := by
  decide

/-- Claim C1 (amended): `totalPages` is computed once from the full
collection and search/category events never change `currentPage`, so the
page index is not re-clamped against the filtered set; what does hold is
that every non-fetch event keeps `totalPages` fixed and preserves
`1 ≤ currentPage ≤ totalPages` whenever `totalPages ≥ 1`. -/
theorem page_bounds_preserved :
    (∀ (s : AppState) (v : String),
        (step s (.searchInput v)).currentPage = s.currentPage ∧
        (step s (.companySelect v)).currentPage = s.currentPage) ∧
    (∀ (s : AppState) (e : Event), (∀ r, e ≠ .fetched r) →
        1 ≤ s.totalPages → 1 ≤ s.currentPage → s.currentPage ≤ s.totalPages →
        (step s e).totalPages = s.totalPages ∧
        1 ≤ (step s e).currentPage ∧ (step s e).currentPage ≤ s.totalPages) := by
  constructor
  · intro s v
    exact ⟨rfl, rfl⟩
  · intro s e hne htot hlo hhi
    cases e with
    | fetched r => exact absurd rfl (hne r)
    | scroll nb =>
        refine ⟨rfl, ?_⟩
        show 1 ≤ handleScroll nb s.currentPage s.totalPages ∧
            handleScroll nb s.currentPage s.totalPages ≤ s.totalPages
        unfold handleScroll
        split_ifs with h
        · obtain ⟨hnb, hlt⟩ := h
          exact ⟨by omega, by omega⟩
        · exact ⟨hlo, hhi⟩
    | pageChange d =>
        have hb := (changePage_bounds s.currentPage d s.totalPages).1 htot
        exact ⟨rfl, hb.1, hb.2⟩
    | searchInput v => exact ⟨rfl, hlo, hhi⟩
    | companySelect v => exact ⟨rfl, hlo, hhi⟩
    | sortToggle => exact ⟨rfl, hlo, hhi⟩

/-- Witness for the amended C1 theorem at a concrete state and event. -/
theorem page_bounds_preserved_witness :
    1 ≤ (step { initialState with totalPages := 1 } (.scroll true)).currentPage ∧
    (step { initialState with totalPages := 1 } (.scroll true)).currentPage ≤ 1 := by
  have h := page_bounds_preserved.2 { initialState with totalPages := 1 } (.scroll true)
    (fun r hr => Event.noConfusion hr) (by decide) (by decide) (by decide)
  exact ⟨h.2.1, h.2.2⟩

/-- Claim C2 (code bug evidence): the input's `onChange` handler is
`debounceSearch` itself, which calls `setSearch` synchronously, so every raw
keystroke commits to the query state immediately; for the burst "a" at t=0ms
and "al" at t=50ms both values are committed, including the intermediate
"a", with no 300 ms quiet period — the `setTimeout` effect only re-submits
the value already committed. -/
theorem search_commits_every_keystroke :
    (∀ (s : AppState) (v : String), (step s (.searchInput v)).search = v) ∧
    commitsOf [⟨0, "a"⟩, ⟨50, "al"⟩] = [(0, "a"), (50, "al")] :=
  ⟨fun _ _ => rfl, rfl⟩

/-- Claim C3, counterexample: after loading six records and searching for
"zed" (one match), the code's page count is `ceil(6/5) = 2`, not the claimed
`max 1 (ceil(filteredCount/pageSize)) = max 1 (ceil(1/5)) = 1`: `totalPages`
is computed from the unfiltered collection. -/
theorem pageCount_from_filtered_cex :
    (run [.fetched (.ok sixUsers), .searchInput "zed"]).totalPages = 2 ∧
    max 1 (specFilteredPageCount (run [.fetched (.ok sixUsers), .searchInput "zed"])) = 1 ∧
    (run [.fetched (.ok sixUsers), .searchInput "zed"]).totalPages ≠
      (max 1 (specFilteredPageCount
        (run [.fetched (.ok sixUsers), .searchInput "zed"])) : Int) := by
  decide

/-- Claim C3 (amended): the page count is `ceil(fullLength / pageSize)`
computed once from the unfiltered collection when the fetch resolves (with
no `max 1` floor, so it is 0 for an empty collection), and the displayed
page is exactly the slice `[(p-1)*pageSize, p*pageSize)` of the
filtered-and-sorted sequence: it is the `take`-of-`drop` window, and its
`i`-th element is the `(p-1)*pageSize + i`-th element of that sequence. -/
theorem paginate_arithmetic :
    (∀ (s : AppState) (data : List User),
        (step s (.fetched (.ok data))).totalPages = (totalPagesOf data.length : Int)) ∧
    (∀ n : Nat, n ≤ usersPerPage * totalPagesOf n ∧
        (∀ k : Nat, n ≤ usersPerPage * k → totalPagesOf n ≤ k)) ∧
    (∀ (l : List User) (p : Nat), 1 ≤ p →
        currentUsers l p = (l.drop ((p - 1) * usersPerPage)).take usersPerPage ∧
        (∀ i : Nat, i < usersPerPage →
          (currentUsers l p)[i]? = l[(p - 1) * usersPerPage + i]?)) := by
  refine ⟨fun _ _ => rfl, ?_, ?_⟩
  · intro n
    constructor
    · show n ≤ 5 * ((n + 5 - 1) / 5)
      omega
    · intro k hk
      show (n + 5 - 1) / 5 ≤ k
      have hk5 : n ≤ 5 * k := hk
      omega
  · intro l p hp
    have hsl : currentUsers l p = (l.drop ((p - 1) * usersPerPage)).take usersPerPage := by
      unfold currentUsers jsSlice
      have h5 : p * usersPerPage - (p - 1) * usersPerPage = usersPerPage := by
        show p * 5 - (p - 1) * 5 = 5
        omega
      rw [h5]
    refine ⟨hsl, ?_⟩
    intro i hi
    rw [hsl, List.getElem?_take, if_pos hi, List.getElem?_drop]

/-- Witness for the amended C3 theorem at concrete inputs. -/
theorem paginate_arithmetic_witness :
    (currentUsers sixUsers 2)[0]? = sixUsers[(2 - 1) * usersPerPage + 0]? ∧
    totalPagesOf 7 ≤ 2 :=
  ⟨((paginate_arithmetic.2.2 sixUsers 2 (by decide)).2 0 (by decide)),
   (paginate_arithmetic.2.1 7).2 2 (by decide)⟩

/-- Claim C4: a record passes the filter step iff its name contains the
search text as a case-insensitive substring and the category filter is
either empty or case-insensitively equal to the record's company name; with
an empty search text only the company condition remains, so an empty search
matches every record. -/
theorem filter_predicate_spec :
    (∀ (users : List User) (search companyFilter : String) (u : User),
        u ∈ filteredUsers users search companyFilter ↔
          u ∈ users ∧
            jsIncludes (jsToLower u.name) (jsToLower search) = true ∧
            (companyFilter = "" ∨ jsToLower u.company.name = jsToLower companyFilter)) ∧
    (∀ (users : List User) (companyFilter : String) (u : User),
        u ∈ filteredUsers users "" companyFilter ↔
          u ∈ users ∧
            (companyFilter = "" ∨ jsToLower u.company.name = jsToLower companyFilter)) := by
  have hmatch : ∀ (u : User) (c : String),
      isCompanyMatch u c = true ↔ (c = "" ∨ jsToLower u.company.name = jsToLower c) := by
    intro u c
    unfold isCompanyMatch
    split_ifs with hc
    · simp [hc]
    · simp only [beq_iff_eq]
      exact ⟨fun h => Or.inr h, fun h => h.resolve_left hc⟩
  have hmain : ∀ (users : List User) (search c : String) (u : User),
      u ∈ filteredUsers users search c ↔
        u ∈ users ∧ jsIncludes (jsToLower u.name) (jsToLower search) = true ∧
          (c = "" ∨ jsToLower u.company.name = jsToLower c) := by
    intro users search c u
    simp only [filteredUsers, List.mem_filter, Bool.and_eq_true, isNameMatch, hmatch]
  refine ⟨hmain, ?_⟩
  intro users c u
  rw [hmain users "" c u]
  have he : jsIncludes (jsToLower u.name) (jsToLower "") = true := jsIncludes_empty _
  simp [he]

/-- Claim C5: a near-bottom scroll event with `pageIndex < pageCount`
advances the page by exactly one; a scroll event never decrements the page
and either leaves it unchanged or lands at most at `pageCount`; and in the
concrete scenario (12 records, page size 5, hence 3 pages) three consecutive
near-bottom scrolls take the page from 1 to 2 to 3, where it stays. -/
theorem scroll_advances_bounded :
    (∀ (nb : Bool) (cur total : Int),
        (nb = true → cur < total → handleScroll nb cur total = cur + 1) ∧
        cur ≤ handleScroll nb cur total ∧
        (handleScroll nb cur total = cur ∨ handleScroll nb cur total ≤ total)) ∧
    ((run [.fetched (.ok twelveUsers)]).totalPages = 3 ∧
      (run [.fetched (.ok twelveUsers)]).currentPage = 1 ∧
      (run [.fetched (.ok twelveUsers), .scroll true]).currentPage = 2 ∧
      (run [.fetched (.ok twelveUsers), .scroll true, .scroll true]).currentPage = 3 ∧
      (run [.fetched (.ok twelveUsers), .scroll true, .scroll true,
        .scroll true]).currentPage = 3 ∧
      (run [.fetched (.ok twelveUsers), .scroll true, .scroll true, .scroll true,
        .scroll true]).currentPage = 3) := by
  constructor
  · intro nb cur total
    unfold handleScroll
    split_ifs with h
    · obtain ⟨hnb, hlt⟩ := h
      exact ⟨fun _ _ => rfl, by omega, Or.inr (by omega)⟩
    · exact ⟨fun hnb hlt => absurd ⟨hnb, hlt⟩ h, le_refl _, Or.inl rfl⟩
  · decide

/-- Witness for the C5 theorem at a concrete near-bottom event. -/
theorem scroll_advances_bounded_witness : handleScroll true 1 3 = 1 + 1 :=
  (scroll_advances_bounded.1 true 1 3).1 rfl (by decide)

/-- Claim C6, counterexample: with search text "o" over records named
"John", "Bob" and "Rose", the filter keeps "Bob" as well — "bob" does
contain "o" — so the filtered set is not the claimed `{"John", "Rose"}`. -/
theorem filter_o_cex :
    bob ∈ filteredUsers [john, bob, rose] "o" "" ∧
    (filteredUsers [john, bob, rose] "o" "").map User.name ≠ ["John", "Rose"] := by
  decide

/-- Claim C6 (amended): with search text "o" over records named "John",
"Bob" and "Rose", the filter step keeps all three records, since all three
lower-cased names contain "o". -/
theorem filter_o_scenario :
    (filteredUsers [john, bob, rose] "o" "").map User.name = ["John", "Bob", "Rose"] :=
  rfl

/-- Claim C7, counterexample: the records named "Bob" and "bob" have
distinct names, yet the stable sort ties them (equal lower-cased keys) and
keeps them in input order for both directions, so the descending result is
not the reverse of the ascending one. -/
theorem sort_flip_cex :
    userB.name ≠ userb.name ∧
    ([userB, userb].map User.name).Nodup ∧
    sortedUsers [userB, userb] "desc" ≠ (sortedUsers [userB, userb] "asc").reverse := by
  decide

/-- Claim C7 (amended): whenever the lower-cased sort keys of the records
are pairwise distinct, the descending sort is the reverse of the ascending
sort. -/
theorem sort_flip (l : List User) (h : (l.map nameKey).Nodup) :
    sortedUsers l "desc" = (sortedUsers l "asc").reverse := by
  have hdesc : sortedUsers l "desc" = List.insertionSort descLE l := by
    unfold sortedUsers
    rw [if_neg (by decide)]
  have hasc : sortedUsers l "asc" = List.insertionSort ascLE l := by
    unfold sortedUsers
    rw [if_pos rfl]
  rw [hdesc, hasc]
  apply perm_sorted_eq
  · exact (List.perm_insertionSort descLE l).trans
      ((List.reverse_perm (List.insertionSort ascLE l)).trans
        (List.perm_insertionSort ascLE l)).symm
  · exact List.sorted_insertionSort descLE l
  · exact (List.pairwise_reverse).2 (List.sorted_insertionSort ascLE l)
  · intro a ha b hb h₁ h₂
    have ha' : a ∈ l := (List.perm_insertionSort descLE l).subset ha
    have hb' : b ∈ l := (List.perm_insertionSort descLE l).subset hb
    exact List.inj_on_of_nodup_map h ha' hb' (lexLe_antisymm _ _ h₂ h₁)

/-- Witness for the amended C7 theorem at a concrete two-record list. -/
theorem sort_flip_witness :
    sortedUsers [john, bob] "desc" = (sortedUsers [john, bob] "asc").reverse :=
  sort_flip [john, bob] (by decide)

/-- Claim C8: when the single startup fetch fails, the state carries the
failure reason, loading ends, the record list stays empty and the displayed
page is empty; moreover no fetch-free continuation of the session ever
changes the record list or clears the error — the failure is terminal. -/
theorem load_failure_atomic :
    ∀ msg : String,
      ((step initialState (.fetched (.error msg))).users = [] ∧
        (step initialState (.fetched (.error msg))).error = some msg ∧
        (step initialState (.fetched (.error msg))).loading = false ∧
        displayedPage (step initialState (.fetched (.error msg))) = []) ∧
      (∀ evs : List Event, (∀ r, Event.fetched r ∉ evs) →
        (evs.foldl step (step initialState (.fetched (.error msg)))).users = [] ∧
        (evs.foldl step (step initialState (.fetched (.error msg)))).error = some msg) := by
  intro msg
  refine ⟨⟨rfl, rfl, rfl, rfl⟩, ?_⟩
  intro evs h
  have hf := foldl_no_fetch evs (step initialState (.fetched (.error msg))) h
  exact ⟨hf.1, hf.2⟩

/-- Witness for the C8 theorem: a failed fetch followed by a scroll event
still shows no records. -/
theorem load_failure_atomic_witness :
    ([Event.scroll true].foldl step
      (step initialState (.fetched (.error "Failed to fetch data.")))).users = [] :=
  (((load_failure_atomic "Failed to fetch data.").2 [Event.scroll true])
    (fun _ hr => Event.noConfusion (List.mem_singleton.mp hr))).1

/-- Claim C9: the prev/next handler computes
`min(max(prevPage + direction, 1), totalPages)`; when `totalPages ≥ 1` the
result lies in `[1, totalPages]`, and when `totalPages = 0` the result is
`0`, below the stated `pageIndex ≥ 1` lower bound. -/
theorem changePage_clamp_spec :
    ∀ p d total : Int,
      changePage p d total = min (max (p + d) 1) total ∧
      (1 ≤ total → 1 ≤ changePage p d total ∧ changePage p d total ≤ total) ∧
      (total = 0 → changePage p d total = 0) :=
  fun p d total => ⟨rfl, changePage_bounds p d total⟩

/-- Witness for the C9 theorem at concrete pages. -/
theorem changePage_clamp_spec_witness :
    (1 ≤ changePage 1 1 2 ∧ changePage 1 1 2 ≤ 2) ∧ changePage 5 1 0 = 0 :=
  ⟨(changePage_clamp_spec 1 1 2).2.1 (by decide),
   (changePage_clamp_spec 5 1 0).2.2 rfl⟩

/-- Claim C10: the page slices each hold at most `usersPerPage` records,
concatenate in page order to the whole filtered-and-sorted sequence, and —
when the sequence has no duplicate records — are pairwise disjoint. -/
theorem pagination_partitions :
    ∀ l : List User,
      (∀ pg ∈ pagesList l, pg.length ≤ usersPerPage) ∧
      (pagesList l).flatten = l ∧
      (l.Nodup → (pagesList l).Pairwise List.Disjoint) := by
  intro l
  have hpages : pagesList l = (List.range (totalPagesOf l.length)).map
      (fun i => (l.drop (i * usersPerPage)).take usersPerPage) := by
    unfold pagesList
    apply List.map_congr_left
    intro i _
    unfold currentUsers jsSlice
    have h1 : i + 1 - 1 = i := rfl
    have h2 : (i + 1) * usersPerPage - (i + 1 - 1) * usersPerPage = usersPerPage := by
      show (i + 1) * 5 - (i + 1 - 1) * 5 = 5
      omega
    rw [h2, h1]
  have hflat : (pagesList l).flatten = l := by
    rw [hpages]
    apply flatten_chunks
    show l.length ≤ (l.length + 5 - 1) / 5 * 5
    omega
  refine ⟨?_, hflat, ?_⟩
  · intro pg hpg
    rw [hpages] at hpg
    obtain ⟨i, _, rfl⟩ := List.mem_map.1 hpg
    exact List.length_take_le _ _
  · intro hnd
    rw [← hflat] at hnd
    exact (List.nodup_flatten.1 hnd).2

/-- Witness for the C10 theorem at a concrete duplicate-free collection. -/
theorem pagination_partitions_witness :
    (pagesList sixUsers).flatten = sixUsers ∧
    (pagesList sixUsers).Pairwise List.Disjoint :=
  ⟨(pagination_partitions sixUsers).2.1,
   (pagination_partitions sixUsers).2.2 (by decide)⟩

end App
